import Mathlib

/-!
Verification of the tutr PTY shell supervisor.

This file gives a shallow embedding of the core of the `tutr` repository:
the marker protocol (`tutr/shell/constants.py`), the rolling output buffer
and the cancelable suggestion requester (`tutr/shell/loop.py`), the trigger
predicate, suggestion formatting and auto-run prompt (`tutr/shell/shell.py`),
and the command safety screening (`tutr/safety.py`).  Bytes are modelled as
`Nat`, Python strings as Lean `String`/`List Char`, and the stateful stdin
loops as functions over explicit traces of read events.  External
collaborators (the LLM query, the JSON codec of the interprocess payload,
process reaping) are parameters of the embedding.
-/

namespace Tutr

/-- Whitespace as stripped by Python's `str.strip()` (ASCII range). -/
def pyWhitespace (c : Char) : Bool :=
  c == ' ' || c == '\t' || c == '\n' || c == '\r' || c == '\x0b' || c == '\x0c'

/-- Embedding of Python `str.strip()`: drop whitespace from both ends. -/
def pyStrip (l : List Char) : List Char :=
  ((l.dropWhile pyWhitespace).reverse.dropWhile pyWhitespace).reverse

/-- Boolean list-prefix test, used by the substring test below. -/
def isPrefixOfB : List Char → List Char → Bool
  | [], _ => true
  | _ :: _, [] => false
  | a :: as, b :: bs => a == b && isPrefixOfB as bs

/-- Boolean contiguous-substring test on character lists. -/
def hasSub (needle : List Char) : List Char → Bool
  | [] => isPrefixOfB needle []
  | c :: cs => isPrefixOfB needle (c :: cs) || hasSub needle cs

/-- Boolean contiguous-substring test on strings. -/
def hasSubstr (needle hay : String) : Bool :=
  hasSub needle.data hay.data

/-! ## Marker protocol (`tutr/shell/constants.py`)

`MARKER_RE = re.compile(rb"\033\]7770;(\d+);([^\007]*)\007")`, scanned with
`finditer` (parse) and `sub(b"", ...)` (strip).  Bytes are `Nat`. -/

/-- Literal header bytes of a marker: ESC `]` `7` `7` `7` `0` `;`. -/
def headerBytes : List Nat := [27, 93, 55, 55, 55, 48, 59]

/-- ASCII decimal digit test on a byte, as in the regex class `\d`. -/
def isDigitByte (b : Nat) : Bool := 48 ≤ b && b ≤ 57

/-- Decimal value of a digit-byte run, as computed by Python `int()`. -/
def digitsToNat (ds : List Nat) : Nat :=
  ds.foldl (fun a d => a * 10 + (d - 48)) 0

/-- Split a byte list into its maximal leading digit run and the rest,
embedding the greedy `(\d+)` group of the marker regex. -/
def spanDigits : List Nat → List Nat × List Nat
  | [] => ([], [])
  | c :: cs =>
    if isDigitByte c then
      let r := spanDigits cs
      (c :: r.1, r.2)
    else ([], c :: cs)

/-- Split a byte list at the first BEL byte (7), embedding the
`([^\007]*)` group of the marker regex. -/
def spanNonBel : List Nat → List Nat × List Nat
  | [] => ([], [])
  | c :: cs =>
    if c == 7 then ([], c :: cs)
    else
      let r := spanNonBel cs
      (c :: r.1, r.2)

/-- Consume the digit run of a marker; fails when no digit is present. -/
def parseDigits (l : List Nat) : Option (List Nat × List Nat) :=
  match spanDigits l with
  | ([], _) => none
  | (ds, rest) => some (ds, rest)

/-- Consume the command field of a marker up to and including its BEL
terminator; fails when no BEL follows. -/
def parseCmdBytes (l : List Nat) : Option (List Nat × List Nat) :=
  match spanNonBel l with
  | (cmd, x :: rest) => if x == 7 then some (cmd, rest) else none
  | (_, []) => none

/-- Consume the literal marker header, if present. -/
def stripHeader : List Nat → Option (List Nat)
  | a :: b :: c :: d :: e :: f :: g :: rest =>
    if a == 27 && b == 93 && c == 55 && d == 55 && e == 55 && f == 48 && g == 59
    then some rest else none
  | _ => none

/-- Try to match one complete marker at the head of a byte list, returning
the decimal exit code, the raw command bytes and the remaining bytes. -/
def matchMarker (l : List Nat) : Option (Nat × List Nat × List Nat) :=
  (stripHeader l).bind fun r0 =>
    (parseDigits r0).bind fun dr =>
      match dr.2 with
      | x :: r2 =>
        if x == 59 then
          (parseCmdBytes r2).map fun cr => (digitsToNat dr.1, cr.1, cr.2)
        else none
      | [] => none

/-- One left-to-right scan of a chunk, collecting the markers in order and
the non-marker bytes in order, with leftmost-match semantics as in
`MARKER_RE.finditer` / `MARKER_RE.sub`.  The fuel argument dominates the
number of scan steps; `scanMarkers` supplies enough fuel. -/
def scanMarkersAux : Nat → List Nat → List (Nat × List Nat) × List Nat
  | 0, l => ([], l)
  | _ + 1, [] => ([], [])
  | fuel + 1, c :: cs =>
    match matchMarker (c :: cs) with
    | some (code, cmd, rest) =>
      let r := scanMarkersAux fuel rest
      ((code, cmd) :: r.1, r.2)
    | none =>
      let r := scanMarkersAux fuel cs
      (r.1, c :: r.2)

/-- Scan a whole chunk for markers. -/
def scanMarkers (l : List Nat) : List (Nat × List Nat) × List Nat :=
  scanMarkersAux l.length l

/-- All markers of a chunk as (exit code, command bytes), in order of
occurrence: the embedding of iterating `MARKER_RE.finditer(data)` with
`int(match.group(1))` and `match.group(2)`. -/
def findallMarkers (l : List Nat) : List (Nat × List Nat) :=
  (scanMarkers l).1

/-- A chunk with every complete marker occurrence removed: the embedding of
`MARKER_RE.sub(b"", data)`. -/
def stripMarkers (l : List Nat) : List Nat :=
  (scanMarkers l).2

/-- A well-formed marker to be embedded in a chunk: a digit run for the
exit code and command bytes free of the BEL terminator. -/
structure Marker where
  codeDigits : List Nat
  cmd : List Nat
deriving DecidableEq, Repr

/-- Encode a marker into its wire bytes `ESC ] 7 7 7 0 ; code ; cmd BEL`. -/
def encodeMarker (m : Marker) : List Nat :=
  headerBytes ++ m.codeDigits ++ 59 :: m.cmd ++ [7]

/-- Well-formedness of a marker for chunk assembly: non-empty digit run,
and a command field containing neither BEL nor ESC. -/
def wfMarker (m : Marker) : Bool :=
  m.codeDigits.all isDigitByte && !m.codeDigits.isEmpty &&
    m.cmd.all (fun c => !(c == 7) && !(c == 27))

/-- A segment of a chunk: either literal shell output or one marker. -/
inductive Seg where
  | lit (bytes : List Nat)
  | mark (m : Marker)
deriving DecidableEq, Repr

/-- Assemble a chunk from its segments. -/
def assemble (segs : List Seg) : List Nat :=
  segs.foldr (fun s acc =>
    (match s with
     | .lit l => l
     | .mark m => encodeMarker m) ++ acc) []

/-- The markers of a segment list, in order, with decoded exit codes. -/
def markersOf (segs : List Seg) : List (Nat × List Nat) :=
  segs.foldr (fun s acc =>
    match s with
    | .mark m => (digitsToNat m.codeDigits, m.cmd) :: acc
    | .lit _ => acc) []

/-- The literal bytes of a segment list, concatenated in order. -/
def literalsOf (segs : List Seg) : List Nat :=
  segs.foldr (fun s acc =>
    match s with
    | .lit l => l ++ acc
    | .mark _ => acc) []

/-- Well-formedness of a segment list: literal segments are free of ESC
bytes (so no marker occurrence can begin inside them) and every embedded
marker is well formed. -/
def wfSegs (segs : List Seg) : Bool :=
  segs.all fun s =>
    match s with
    | .lit l => l.all (fun c => !(c == 27))
    | .mark m => wfMarker m

/-! ## Regular-expression atoms for the safety patterns (`tutr/safety.py`)

Each dangerous-command regex of `_DANGEROUS_PATTERNS` is translated into a
list of alternatives, each alternative a sequence of atoms: a single
character of a class, a greedy-or-empty repetition of a class, or a word
boundary.  Existence of a match (`re.search`) is decided by a backtracking
matcher over positions. -/

/-- Word character as in the regex `\b` boundary (ASCII range). -/
def wordChar (c : Char) : Bool := c.isAlphanum || c == '_'

/-- One atom of a compiled pattern. -/
inductive Atom where
  | one (p : Char → Bool)
  | many (p : Char → Bool)
  | bound

/-- Word-boundary test between the previous character (if any) and the
rest of the input, as in the regex `\b`. -/
def boundaryHere (prev : Option Char) (s : List Char) : Bool :=
  match prev, s with
  | none, [] => false
  | none, c :: _ => wordChar c
  | some p, [] => wordChar p
  | some p, c :: _ => wordChar p != wordChar c

/-- Match a sequence of atoms at the current position, tracking the
previous character for boundary tests; the pattern may end anywhere.  The
fuel argument only bounds the recursion depth: every step consumes either
an input character or an atom, so `matchAtoms` below supplies enough fuel
for the budget never to run out. -/
def matchAtomsF : Nat → List Atom → Option Char → List Char → Bool
  | 0, _, _, _ => false
  | _ + 1, [], _, _ => true
  | _ + 1, .one _ :: _, _, [] => false
  | fuel + 1, .one p :: as, _, c :: cs => p c && matchAtomsF fuel as (some c) cs
  | fuel + 1, .many p :: as, prev, s =>
    matchAtomsF fuel as prev s ||
      (match s with
       | [] => false
       | c :: cs => p c && matchAtomsF fuel (.many p :: as) (some c) cs)
  | fuel + 1, .bound :: as, prev, s => boundaryHere prev s && matchAtomsF fuel as prev s

/-- Match a sequence of atoms at the current position with a sufficient
fuel budget. -/
def matchAtoms (as : List Atom) (prev : Option Char) (s : List Char) : Bool :=
  matchAtomsF (s.length + as.length + 1) as prev s

/-- Match a sequence of atoms at some position of the input, as in
`re.search`. -/
def searchAtoms (as : List Atom) : Option Char → List Char → Bool
  | prev, [] => matchAtoms as prev []
  | prev, c :: cs => matchAtoms as prev (c :: cs) || searchAtoms as (some c) cs

/-- Search for any alternative of a compiled pattern in the input. -/
def reSearch (alts : List (List Atom)) (s : List Char) : Bool :=
  alts.any fun a => searchAtoms a none s

/-- Case-insensitive single character, for the `re.IGNORECASE` patterns. -/
def ci (c : Char) : Char → Bool := fun x => x.toLower == c

/-- Case-insensitive literal word as a sequence of atoms. -/
def litCI (w : String) : List Atom := w.data.map (fun c => .one (ci c))

/-- Exact single character. -/
def exactC (c : Char) : Char → Bool := fun x => x == c

/-- Character class `\s` of the safety patterns (ASCII range). -/
def wsC (c : Char) : Bool := pyWhitespace c

/-- Character class `[^\n]`. -/
def nonNl (c : Char) : Bool := !(c == '\n')

/-- Character class `[^\n|]`. -/
def nonNlPipe (c : Char) : Bool := !(c == '\n') && !(c == '|')

/-- Left and right brace characters, written via code points. -/
def lbraceChar : Char := Char.ofNat 123

/-- Right brace character. -/
def rbraceChar : Char := Char.ofNat 125

/-- Backquote character, written via its code point. -/
def backquoteChar : Char := Char.ofNat 96

/-- Character class `[^}]` of the fork-bomb pattern. -/
def nonRBrace (c : Char) : Bool := !(c == rbraceChar)

/-- Character class excluding backquote and newline, from the
command-substitution pattern. -/
def nonBackquoteNl (c : Char) : Bool := !(c == backquoteChar) && !(c == '\n')

/-- Character class `[^)\n]` of the command-substitution pattern. -/
def nonRParenNl (c : Char) : Bool := !(c == ')') && !(c == '\n')

/-- Character class `[a-z0-9_+-]` under `re.IGNORECASE`, from the mkfs
pattern. -/
def mkfsSuffixChar (c : Char) : Bool :=
  ('a' ≤ c.toLower && c.toLower ≤ 'z') || ('0' ≤ c && c ≤ '9') ||
    c == '_' || c == '+' || c == '-'

/-- Compiled `\brm\s+-[^\n]*(?:r[^\n]*f|f[^\n]*r)\b`: the two alternation
branches share the prefix up to the flag dash. -/
def rmPattern : List (List Atom) :=
  let pre : List Atom :=
    [.bound] ++ litCI "rm" ++ [.one wsC, .many wsC, .one (exactC '-'), .many nonNl]
  [pre ++ [.one (ci 'r'), .many nonNl, .one (ci 'f'), .bound],
   pre ++ [.one (ci 'f'), .many nonNl, .one (ci 'r'), .bound]]

/-- Compiled `\bmkfs(?:\.[a-z0-9_+-]+)?\b`: the optional dotted suffix is
expanded into a second alternative. -/
def mkfsPattern : List (List Atom) :=
  [[.bound] ++ litCI "mkfs" ++ [.bound],
   [.bound] ++ litCI "mkfs" ++
     [.one (exactC '.'), .one mkfsSuffixChar, .many mkfsSuffixChar, .bound]]

/-- Compiled `\bdd\b`. -/
def ddPattern : List (List Atom) :=
  [[.bound] ++ litCI "dd" ++ [.bound]]

/-- Compiled `\b(?:shutdown|reboot|halt|poweroff|killall)\b`. -/
def shutdownPattern : List (List Atom) :=
  ["shutdown", "reboot", "halt", "poweroff", "killall"].map fun w =>
    [.bound] ++ litCI w ++ [.bound]

/-- Compiled `\b(?:curl|wget)\b[^\n|]*\|\s*(?:bash|sh|zsh|ksh|fish)\b`:
one alternative per pair of download tool and shell. -/
def pipeShellPattern : List (List Atom) :=
  ["curl", "wget"].flatMap fun w1 =>
    ["bash", "sh", "zsh", "ksh", "fish"].map fun w2 =>
      [.bound] ++ litCI w1 ++
        [.bound, .many nonNlPipe, .one (exactC '|'), .many wsC] ++
        litCI w2 ++ [.bound]

/-- Compiled fork-bomb pattern
`:\s*\(\s*\)\s*{[^}]*:\s*\|:\s*;[^}]*}\s*;?\s*:`, with the optional
semicolon expanded into two alternatives. -/
def forkBombPattern : List (List Atom) :=
  let core : List Atom :=
    [.one (exactC ':'), .many wsC, .one (exactC '('), .many wsC,
     .one (exactC ')'), .many wsC, .one (exactC lbraceChar), .many nonRBrace,
     .one (exactC ':'), .many wsC, .one (exactC '|'), .one (exactC ':'),
     .many wsC, .one (exactC ';'), .many nonRBrace, .one (exactC rbraceChar)]
  [core ++ [.many wsC, .many wsC, .one (exactC ':')],
   core ++ [.many wsC, .one (exactC ';'), .many wsC, .one (exactC ':')]]

/-- Compiled command-substitution pattern: backquoted run, or dollar and
parenthesised run (no `re.IGNORECASE` on this one). -/
def cmdSubPattern : List (List Atom) :=
  [[.one (exactC backquoteChar), .one nonBackquoteNl, .many nonBackquoteNl,
    .one (exactC backquoteChar)],
   [.one (exactC '$'), .one (exactC '('), .one nonRParenNl, .many nonRParenNl,
    .one (exactC ')')]]

/-- The `_DANGEROUS_PATTERNS` table of `tutr/safety.py`, in source order,
with the exact reason strings. -/
def dangerousPatterns : List (List (List Atom) × String) :=
  [(rmPattern, "contains recursive force delete (rm -rf style)"),
   (mkfsPattern, "contains filesystem formatting command (mkfs)"),
   (ddPattern, "contains raw disk copy command (dd)"),
   (shutdownPattern, "contains system/process shutdown command"),
   (pipeShellPattern, "contains pipe-to-shell execution (curl|bash style)"),
   (forkBombPattern, "contains fork bomb pattern"),
   (cmdSubPattern, "contains command substitution")]

/-- Result record of `assess_command_safety`. -/
structure CommandSafetyAssessment where
  is_safe : Bool
  reasons : List String
deriving DecidableEq, Repr

/-- Embedding of `assess_command_safety`: the multi-line check first, then
the dangerous patterns in table order; safe iff no reason accumulated. -/
def assess_command_safety (command : String) : CommandSafetyAssessment :=
  let reasons :=
    (if command.data.contains '\n' || command.data.contains '\r' then
      ["contains multiple lines"]
     else []) ++
    dangerousPatterns.filterMap fun pr =>
      if reSearch pr.1 command.data then some pr.2 else none
  ⟨reasons.isEmpty, reasons⟩

/-- Embedding of `is_unsafe_override_enabled`: the raw value of the
`TUTR_ALLOW_UNSAFE` environment variable (absent modelled as `none`),
stripped and lowercased, must be one of the four enabling words. -/
def is_unsafe_override_enabled (raw : Option String) : Bool :=
  let s := (pyStrip (raw.getD "").data).map Char.toLower
  s == "1".data || s == "true".data || s == "yes".data || s == "on".data

/-! ## Tutor suggestion helpers (`tutr/shell/shell.py`) -/

/-- Embedding of `_should_ask_tutor`: exit code 130 never triggers, any
other non-zero exit code triggers iff the command is non-blank. -/
def _should_ask_tutor (exit_code : Int) (command : String) : Bool :=
  if exit_code == 130 then false
  else !(exit_code == 0) && !(pyStrip command.data).isEmpty

/-- Modelled from the spec: the ANSI style constants of the module
`tutr.constants`, which is not under `src/` (only `tutr.shell.constants`
is); the spec describes the display text only as colorized, so the
standard ANSI sequences are used.  No claim below depends on their
values. -/
def BOLD : String := "\x1b[1m"

/-- Modelled from the spec: cyan ANSI color, see `BOLD`. -/
def CYAN : String := "\x1b[36m"

/-- Modelled from the spec: red ANSI color, see `BOLD`. -/
def RED : String := "\x1b[31m"

/-- Modelled from the spec: ANSI style reset, see `BOLD`. -/
def RESET : String := "\x1b[0m"

/-- The parsed LLM response consumed by `_ask_tutor` (the `command`,
`explanation` and `source` fields of `CommandResponse`). -/
structure CommandResponse where
  command : String
  explanation : String
  source : Option String
deriving DecidableEq, Repr

/-- The per-reason lines of the blocked-suggestion message, mirroring the
accumulation loop `for reason in safety.reasons`. -/
def reasonLines : List String → String
  | [] => ""
  | r :: rs => "  - " ++ r ++ "\r\n" ++ reasonLines rs

/-- The blocked-suggestion message built by `_ask_tutor` when the safety
check fails and no override is active, one indented line per reason. -/
def blockedMessage (reasons : List String) : String :=
  "\r\ntutr blocked a potentially dangerous suggestion:\r\n" ++
    reasonLines reasons ++
    "Set TUTR_ALLOW_UNSAFE=1 to override.\r\n"

/-- The success-path display text of `_ask_tutor`: the optional override
warning, the header line, the highlighted command line, and the optional
explanation/source lines.  `warn_override` stands for the condition
`not safety.is_safe and allow_override` of the source. -/
def suggestionMessage (result : CommandResponse)
    (warn_override use_color show_explanation : Bool) : String :=
  let suggestion_header :=
    if use_color then BOLD ++ "tutr suggests:" ++ RESET
    else "tutr suggests:"
  let suggestion_command :=
    if use_color then BOLD ++ CYAN ++ "$ " ++ result.command ++ RESET
    else "$ " ++ result.command
  let warn :=
    if warn_override then
      let warning_text :=
        "tutr warning: unsafe override enabled for a risky suggestion"
      let warning_text :=
        if use_color then RED ++ warning_text ++ RESET else warning_text
      "\r\n" ++ warning_text ++ "\r\n"
    else ""
  let expl :=
    if show_explanation then
      (if (pyStrip result.explanation.data).isEmpty then ""
       else "  " ++ result.explanation ++ "\r\n") ++
      (match result.source with
       | some src =>
         if (pyStrip src.data).isEmpty then ""
         else "  source: " ++ src ++ "\r\n"
       | none => "")
    else ""
  warn ++ "\r\n" ++ suggestion_header ++ "\r\n  " ++ suggestion_command ++
    "\r\n" ++ expl

/-- Embedding of `_ask_tutor`, returning the display text and the optional
suggested command.  The external `run_query` call is a parameter: `.ok`
carries its parsed response, `.error` the message of a raised exception
(the failed command and terminal output only feed the query string, so
they are absorbed into this parameter).  `allow_override` stands for
`is_unsafe_override_enabled()`, `use_color` for `_supports_color()`, and
`show_explanation` for `config.show_explanation`. -/
def _ask_tutor (queryOutcome : Except String CommandResponse)
    (allow_override use_color show_explanation : Bool) :
    String × Option String :=
  match queryOutcome with
  | .error e =>
    if use_color then
      ("\r\n" ++ RED ++ "tutr error: " ++ e ++ RESET ++ "\r\n", none)
    else
      ("\r\ntutr error: " ++ e ++ "\r\n", none)
  | .ok result =>
    let safety := assess_command_safety result.command
    if !safety.is_safe && !allow_override then
      (blockedMessage safety.reasons, none)
    else
      (suggestionMessage result (!safety.is_safe && allow_override)
        use_color show_explanation, some result.command)

/-! ## Auto-run prompt (`_prompt_auto_run` / `_is_auto_run_accepted`)

The prompt reads one byte at a time from the real stdin; a run is modelled
by the trace of `os.read(stdin_fd, 1)` outcomes.  The returned value
collects the bytes written to the real stdout and, optionally, the command
line injected into the PTY master; `none` means the trace ended without a
decisive read, in which case the real loop would still be blocked. -/

/-- Outcome of one `os.read(stdin_fd, 1)` call: an `OSError`, an empty
(end-of-input) read, or one byte. -/
inductive StdinRead where
  | err
  | eof
  | byte (b : Nat)
deriving DecidableEq, Repr

/-- Embedding of `_is_auto_run_accepted`: only `y` (121) and `Y` (89). -/
def _is_auto_run_accepted (b : Nat) : Bool := b == 121 || b == 89

/-- Decline set of the prompt loop: `n`, `N`, Ctrl-C, Escape, CR, LF. -/
def isDeclineByte (b : Nat) : Bool :=
  b == 110 || b == 78 || b == 3 || b == 27 || b == 13 || b == 10

/-- A byte that neither accepts nor declines, so the loop keeps reading. -/
def isNonDecisive (r : StdinRead) : Bool :=
  match r with
  | .byte b => !(_is_auto_run_accepted b) && !(isDeclineByte b)
  | _ => false

/-- The fixed prompt text written before the read loop. -/
def promptText : String := "Run suggested command? [y/N] (Esc rejects): "

/-- The read loop of `_prompt_auto_run`: returns the stdout bytes written
after the prompt and the optional PTY-master write. -/
def promptLoop (command : String) : List StdinRead → Option (String × Option String)
  | [] => none
  | .err :: _ => some ("\r\n", none)
  | .eof :: _ => some ("\r\n", none)
  | .byte b :: rest =>
    if _is_auto_run_accepted b then some ("y\r\n", some (command ++ "\n"))
    else if isDeclineByte b then some ("n\r\n", none)
    else promptLoop command rest

/-- Embedding of `_prompt_auto_run`: the prompt text followed by the loop's
echo on stdout, plus the optional injected command on the PTY master. -/
def _prompt_auto_run (command : String) (reads : List StdinRead) :
    Option (String × Option String) :=
  (promptLoop command reads).map fun r => (promptText ++ r.1, r.2)

/-! ## Cancelable suggestion requester (`_ask_tutor_with_cancel`)

The parent side repeatedly calls `select` over the real stdin and the
result pipe; a run is modelled by the trace of select outcomes.  The JSON
decoding of the child's payload (`json.loads` plus field access, an
external library call) is a parameter; `none` stands for any
`JSONDecodeError`/`KeyError`/`UnicodeDecodeError`.  The final blocking
`os.waitpid(pid, 0)` is modelled by whether the child ever becomes
reapable; an overall result of `none` means the call never returns. -/

/-- Outcome of reading the result pipe when `select` reports it ready: an
`OSError`, or a chunk of bytes (an empty chunk is end-of-file). -/
inductive PipeRead where
  | err
  | chunk (data : List Nat)
deriving DecidableEq, Repr

/-- One iteration of the select loop: `select` itself raised `OSError`, or
it returned with the given readiness (and read outcome) of the real stdin
and of the result pipe. -/
inductive SelectEvent where
  | selErr
  | ready (stdin : Option StdinRead) (pipe : Option PipeRead)
deriving DecidableEq, Repr

/-- How the select loop ended: canceled by a cancel byte, or fell through
to payload decoding with the bytes accumulated so far. -/
inductive LoopOutcome where
  | canceled
  | finished (payload : List Nat)
deriving DecidableEq, Repr

/-- Byte value read from stdin for one `os.read(stdin_fd, 1)` outcome:
an `OSError` is turned into an empty read by the source. -/
def stdinByteOf : StdinRead → Option Nat
  | .err => none
  | .eof => none
  | .byte b => some b

/-- Whether a stdin readiness outcome delivers a cancel byte: the test
`choice in {b"\x03", b"\x1b"}` on the byte read (errors and empty reads
read as the non-cancel empty byte string). -/
def isCancelEventStdin (s : Option StdinRead) : Bool :=
  match s with
  | some r =>
    match stdinByteOf r with
    | some b => b == 3 || b == 27
    | none => false
  | none => false

/-- The select loop of `_ask_tutor_with_cancel`: stdin is checked first in
each iteration, and a Ctrl-C (3) or Escape (27) byte cancels immediately;
otherwise the pipe is drained until end-of-file or an error.  `none` means
the trace ended with the loop still blocked in `select`. -/
def runCancelLoop : List SelectEvent → List Nat → Option LoopOutcome
  | [], _ => none
  | .selErr :: _, payload => some (.finished payload)
  | .ready s p :: rest, payload =>
    if isCancelEventStdin s then some .canceled
    else
      match p with
      | none => runCancelLoop rest payload
      | some .err => some (.finished payload)
      | some (.chunk []) => some (.finished payload)
      | some (.chunk c) => runCancelLoop rest (payload ++ c)

/-- Whether the child process ever becomes reapable by the final blocking
`os.waitpid(pid, 0)` call (`hangs` models a child that ignores SIGTERM and
never exits). -/
inductive ChildReap where
  | reaps
  | hangs
deriving DecidableEq, Repr

/-- Whether the blocking `os.waitpid(pid, 0)` call returns. -/
def waitpidReturns : ChildReap → Bool
  | .reaps => true
  | .hangs => false

/-- Embedding of `_ask_tutor_with_cancel`: run the select loop, then reap
the child (blocking), then either return the cancellation result or decode
the payload; `none` means the call never returns (still blocked in
`select` or in `waitpid`). -/
def _ask_tutor_with_cancel (decode : List Nat → Option (String × Option String))
    (events : List SelectEvent) (child : ChildReap) :
    Option (String × Option String) :=
  match runCancelLoop events [] with
  | none => none
  | some outcome =>
    if waitpidReturns child then
      match outcome with
      | .canceled => some ("\r\ntutr canceled.\r\n", none)
      | .finished payload =>
        match decode payload with
        | some r => some r
        | none => some ("\r\ntutr error: failed to parse tutor response\r\n", none)
    else none

/-- A trace on which a cancel byte (Ctrl-C or Escape) is read from stdin
strictly before any event that would end the select loop: before any
`select` error, pipe read error, or pipe end-of-file. -/
def cancelWins : List SelectEvent → Bool
  | [] => false
  | .selErr :: _ => false
  | .ready s p :: rest =>
    if isCancelEventStdin s then true
    else
      (match p with
       | none => true
       | some .err => false
       | some (.chunk c) => !c.isEmpty) && cancelWins rest

/-! ## Rolling output buffer (`shell_loop`, `tutr/shell/loop.py`)

Per PTY-master read of a chunk `data`, the loop resets the buffer to empty
after each processed marker, strips all markers, writes the remainder to
the real stdout and appends it to the buffer truncated to the capacity
bound `recent_output = (recent_output + clean)[-OUTPUT_BUFFER_SIZE:]`. -/

/-- `OUTPUT_BUFFER_SIZE` of `tutr/shell/constants.py`. -/
def OUTPUT_BUFFER_SIZE : Nat := 4096

/-- Python `x[-n:]` for positive `n`: the last `min n x.length` bytes. -/
def takeLast (n : Nat) (l : List Nat) : List Nat :=
  l.drop (l.length - n)

/-- Buffer update of one PTY-master iteration: the fold over the parsed
markers models the per-marker `recent_output = b""` reset, and the final
append-and-truncate models the rolling window. -/
def iterBuffer (buf data : List Nat) : List Nat :=
  let bufAfterMarkers := (findallMarkers data).foldl (fun _ _ => ([] : List Nat)) buf
  takeLast OUTPUT_BUFFER_SIZE (bufAfterMarkers ++ stripMarkers data)

/-- Buffer contents after a whole sequence of PTY-master reads, starting
from the initial empty buffer. -/
def runBuffer (chunks : List (List Nat)) : List Nat :=
  chunks.foldl iterBuffer []

/-! ## Helper lemmas -/

/-- A list is a Boolean prefix of itself followed by anything. -/
theorem isPrefixOfB_self_append (n t : List Char) : isPrefixOfB n (n ++ t) = true := by
  induction n with
  | nil => rfl
  | cons c cs ih => simp [isPrefixOfB, ih]

/-- Boolean prefixes extend along appends on the right. -/
theorem isPrefixOfB_extend {n t : List Char} (b : List Char)
    (h : isPrefixOfB n t = true) : isPrefixOfB n (t ++ b) = true := by
  induction n generalizing t with
  | nil => rfl
  | cons c cs ih =>
    cases t with
    | nil => simp [isPrefixOfB] at h
    | cons d ds =>
      simp [isPrefixOfB] at h ⊢
      exact ⟨h.1, ih h.2⟩

/-- The empty needle occurs in every haystack. -/
theorem hasSub_nil (t : List Char) : hasSub [] t = true := by
  cases t <;> simp [hasSub, isPrefixOfB]

/-- A needle occurring at the front is found. -/
theorem hasSub_self_append (n t : List Char) : hasSub n (n ++ t) = true := by
  cases hn : n ++ t with
  | nil => simp [List.append_eq_nil] at hn; simp [hn.1, hasSub_nil]
  | cons c cs =>
    have := isPrefixOfB_self_append n t
    simp [hasSub, ← hn, this]

/-- Occurrences survive consing on the left. -/
theorem hasSub_cons {n t : List Char} (c : Char) (h : hasSub n t = true) :
    hasSub n (c :: t) = true := by
  simp [hasSub, h]

/-- Occurrences survive appending on the left. -/
theorem hasSub_append_left {n t : List Char} (pre : List Char)
    (h : hasSub n t = true) : hasSub n (pre ++ t) = true := by
  induction pre with
  | nil => exact h
  | cons c cs ih => exact hasSub_cons c ih

/-- Occurrences survive appending on the right. -/
theorem hasSub_append_right {n t : List Char} (b : List Char)
    (h : hasSub n t = true) : hasSub n (t ++ b) = true := by
  induction t with
  | nil =>
    have hn : n = [] := by
      cases n with
      | nil => rfl
      | cons c cs => simp [hasSub, isPrefixOfB] at h
    simp [hn, hasSub_nil]
  | cons c cs ih =>
    simp only [hasSub, Bool.or_eq_true] at h
    rcases h with h | h
    · have := isPrefixOfB_extend b h
      simp only [List.cons_append, hasSub, Bool.or_eq_true]
      exact Or.inl (by simpa using this)
    · have := ih h
      simpa [List.cons_append] using hasSub_cons c this

/-- A needle flanked by arbitrary context is found. -/
theorem hasSub_mid (n pre suf : List Char) :
    hasSub n (pre ++ n ++ suf) = true := by
  have := hasSub_self_append n suf
  simpa [List.append_assoc] using hasSub_append_left pre this

/-- Stripping an all-whitespace list yields the empty list. -/
theorem pyStrip_of_all_ws {l : List Char} (h : l.all pyWhitespace = true) :
    pyStrip l = [] := by
  have h' : ∀ c ∈ l, pyWhitespace c = true := by simpa [List.all_eq_true] using h
  have h1 : l.dropWhile pyWhitespace = [] :=
    List.dropWhile_eq_nil_iff.2 h'
  simp [pyStrip, h1]

/-- Stripping keeps at least one character when one is not whitespace. -/
theorem pyStrip_ne_nil {l : List Char} (h : l.all pyWhitespace = false) :
    pyStrip l ≠ [] := by
  intro hs
  obtain ⟨x, hx, hxw⟩ : ∃ x ∈ l, ¬ pyWhitespace x = true := by
    simpa [List.all_eq_true] using h
  have h2 : ((l.dropWhile pyWhitespace).reverse.dropWhile pyWhitespace) = [] := by
    simpa [pyStrip] using congrArg List.reverse hs
  have h3 : ∀ c ∈ (l.dropWhile pyWhitespace).reverse, pyWhitespace c = true :=
    List.dropWhile_eq_nil_iff.1 h2
  have h4 : ∀ c ∈ l.dropWhile pyWhitespace, pyWhitespace c = true := by
    intro c hc
    exact h3 c (by simpa using hc)
  have h5 : ∀ c ∈ l.takeWhile pyWhitespace, pyWhitespace c = true := by
    intro c hc
    exact List.mem_takeWhile_imp hc
  have h6 : ∀ c ∈ l, pyWhitespace c = true := by
    intro c hc
    rw [← List.takeWhile_append_dropWhile (p := pyWhitespace) (l := l)] at hc
    rcases List.mem_append.1 hc with hc | hc
    · exact h5 c hc
    · exact h4 c hc
  exact hxw (h6 x hx)

/-! ## Claims -/

/-- Claim C3: the suggestion trigger predicate is false for exit code 0 and
for exit code 130 whatever the command; for any other non-zero exit code it
is false on a whitespace-only (or empty) command and true on a command with
at least one non-whitespace character.  (The clause for non-zero codes is
read together with the 130 carve-out stated by the same claim.) -/
theorem should_ask_tutor_trigger (n : Int) (cmd : String)
    (hn : n ≠ 0) (hn' : n ≠ 130) :
    _should_ask_tutor 0 cmd = false ∧
    _should_ask_tutor 130 cmd = false ∧
    (cmd.data.all pyWhitespace = true → _should_ask_tutor n cmd = false) ∧
    (cmd.data.all pyWhitespace = false → _should_ask_tutor n cmd = true) := by
  refine ⟨by simp [_should_ask_tutor], by simp [_should_ask_tutor], ?_, ?_⟩
  · intro h
    simp [_should_ask_tutor, hn', pyStrip_of_all_ws h]
  · intro h
    simp [_should_ask_tutor, hn', hn, pyStrip_ne_nil h]

/-- Witness for C3 at exit code 1 and command "ls". -/
theorem should_ask_tutor_trigger_witness :
    ((1 : Int) ≠ 0 ∧ (1 : Int) ≠ 130 ∧ "ls".data.all pyWhitespace = false) ∧
    _should_ask_tutor 1 "ls" = true :=
  ⟨by decide,
   (should_ask_tutor_trigger 1 "ls" (by decide) (by decide)).2.2.2 (by decide)⟩

/-- Claim C10: the unsafe override is enabled exactly when the raw value of
`TUTR_ALLOW_UNSAFE`, stripped of surrounding whitespace and lowercased, is
one of "1", "true", "yes" or "on"; in particular an unset, empty, or "0"
value leaves it disabled, and case or surrounding whitespace do not
matter. -/
theorem unsafe_override_characterization :
    (∀ raw : Option String,
      is_unsafe_override_enabled raw =
        (["1", "true", "yes", "on"].any fun w =>
          (pyStrip ((raw.getD "").data)).map Char.toLower == w.data)) ∧
    is_unsafe_override_enabled none = false ∧
    is_unsafe_override_enabled (some "") = false ∧
    is_unsafe_override_enabled (some "0") = false ∧
    is_unsafe_override_enabled (some "  TrUe ") = true ∧
    is_unsafe_override_enabled (some "ON") = true ∧
    is_unsafe_override_enabled (some "enabled") = false := by
  refine ⟨?_, by decide, by decide, by decide, by decide, by decide, by decide⟩
  intro raw
  simp [is_unsafe_override_enabled, List.any, Bool.or_assoc]

/-- The prompt read loop ignores a prefix of non-decisive reads. -/
theorem promptLoop_skips (cmd : String) (junk rest : List StdinRead)
    (hj : junk.all isNonDecisive = true) :
    promptLoop cmd (junk ++ rest) = promptLoop cmd rest := by
  induction junk with
  | nil => rfl
  | cons r t ih =>
    have hr : isNonDecisive r = true := by
      have := (List.all_eq_true.1 hj) r (by simp)
      simpa using this
    have ht : t.all isNonDecisive = true := by
      simp only [List.all_cons, Bool.and_eq_true] at hj
      exact hj.2
    cases r with
    | err => simp [isNonDecisive] at hr
    | eof => simp [isNonDecisive] at hr
    | byte b =>
      have hacc : _is_auto_run_accepted b = false := by
        simp [isNonDecisive] at hr
        simpa using hr.1
      have hdec : isDeclineByte b = false := by
        simp [isNonDecisive] at hr
        simpa using hr.2
      simp [promptLoop, hacc, hdec, ih ht]

/-- Claim C4: in the auto-run prompt, the first decisive read determines
the outcome after any run of non-decisive bytes: `y`/`Y` accepts, echoing
"y" plus a line break and injecting the command plus a newline into the
PTY master; a decline byte (`n`, `N`, Escape, Ctrl-C, CR, LF) echoes "n"
plus a line break and injects nothing; end-of-input or a read error
declines with a bare trailing line break; and a trace of only non-decisive
bytes leaves the loop still reading. -/
theorem prompt_auto_run_first_decisive (cmd : String) (junk rest : List StdinRead)
    (b : Nat) (hj : junk.all isNonDecisive = true) :
    (b = 121 ∨ b = 89 →
      _prompt_auto_run cmd (junk ++ .byte b :: rest) =
        some (promptText ++ "y\r\n", some (cmd ++ "\n"))) ∧
    (isDeclineByte b = true →
      _prompt_auto_run cmd (junk ++ .byte b :: rest) =
        some (promptText ++ "n\r\n", none)) ∧
    _prompt_auto_run cmd (junk ++ .eof :: rest) =
      some (promptText ++ "\r\n", none) ∧
    _prompt_auto_run cmd (junk ++ .err :: rest) =
      some (promptText ++ "\r\n", none) ∧
    _prompt_auto_run cmd junk = none := by
  refine ⟨?_, ?_, ?_, ?_, ?_⟩
  · intro hb
    have hacc : _is_auto_run_accepted b = true := by
      rcases hb with hb | hb <;> simp [hb, _is_auto_run_accepted]
    simp [_prompt_auto_run, promptLoop_skips cmd junk _ hj, promptLoop, hacc]
  · intro hb
    have hacc : _is_auto_run_accepted b = false := by
      simp [isDeclineByte] at hb
      simp [_is_auto_run_accepted]
      omega
    simp [_prompt_auto_run, promptLoop_skips cmd junk _ hj, promptLoop, hacc, hb]
  · simp [_prompt_auto_run, promptLoop_skips cmd junk _ hj, promptLoop]
  · simp [_prompt_auto_run, promptLoop_skips cmd junk _ hj, promptLoop]
  · have := promptLoop_skips cmd junk [] hj
    simp only [List.append_nil] at this
    simp [_prompt_auto_run, this, promptLoop]

/-- Witness for C4: after one non-decisive byte, `Y` accepts and injects
the suggested command plus a newline. -/
theorem prompt_auto_run_first_decisive_witness :
    ([StdinRead.byte 122].all isNonDecisive = true) ∧
    _prompt_auto_run "git pull" [StdinRead.byte 122, StdinRead.byte 89] =
      some (promptText ++ "y\r\n", some ("git pull" ++ "\n")) :=
  ⟨by decide,
   (prompt_auto_run_first_decisive "git pull" [StdinRead.byte 122] [] 89
      (by decide)).1 (Or.inr rfl)⟩

/-- A trace on which a cancel byte wins makes the select loop cancel,
whatever payload has been accumulated. -/
theorem cancelWins_runCancelLoop (events : List SelectEvent)
    (h : cancelWins events = true) :
    ∀ payload, runCancelLoop events payload = some .canceled := by
  induction events with
  | nil => simp [cancelWins] at h
  | cons ev rest ih =>
    intro payload
    cases ev with
    | selErr => simp [cancelWins] at h
    | ready s p =>
      by_cases hc : isCancelEventStdin s = true
      · simp [runCancelLoop, hc]
      · simp only [cancelWins] at h
        rw [if_neg (by simpa using hc)] at h
        rw [Bool.and_eq_true] at h
        have hp := h.1
        have hrest := h.2
        simp only [runCancelLoop]
        rw [if_neg (by simpa using hc)]
        cases p with
        | none => exact ih hrest payload
        | some pr =>
          cases pr with
          | err => simp at hp
          | chunk c =>
            cases c with
            | nil => simp at hp
            | cons x xs => exact ih hrest (payload ++ x :: xs)

/-- Claim C1: whenever a cancel byte (Escape 0x1B or Ctrl-C 0x03) is read
from the real stdin before any event completing the child's result (pipe
end-of-file, pipe error, or select error), every result the requester
returns is the cancellation result: display text "tutr canceled." framed
in line breaks and no suggested command — independent of the payload
decoder and of the child's eventual output. -/
theorem cancel_race_returns_canceled
    (decode : List Nat → Option (String × Option String))
    (events : List SelectEvent) (child : ChildReap)
    (r : String × Option String)
    (hc : cancelWins events = true)
    (hr : _ask_tutor_with_cancel decode events child = some r) :
    r = ("\r\ntutr canceled.\r\n", none) := by
  have h := cancelWins_runCancelLoop events hc []
  rw [_ask_tutor_with_cancel, h] at hr
  cases child with
  | reaps =>
    simp [waitpidReturns] at hr
    exact hr.symm
  | hangs => simp [waitpidReturns] at hr

/-- Witness for C1: an Escape byte read while the pipe is silent yields the
cancellation result even though the decoder would have produced a
suggestion. -/
theorem cancel_race_returns_canceled_witness :
    cancelWins [SelectEvent.ready (some (StdinRead.byte 27)) none] = true ∧
    (("\r\ntutr canceled.\r\n", none) : String × Option String) =
      ("\r\ntutr canceled.\r\n", none) :=
  ⟨by decide,
   cancel_race_returns_canceled (fun _ => some ("tutr suggests: ls", some "ls"))
     [SelectEvent.ready (some (StdinRead.byte 27)) none] ChildReap.reaps
     ("\r\ntutr canceled.\r\n", none) (by decide) (by rfl)⟩

/-- Claim C8: suggestion failures are recovered locally: an exception from
the LLM query makes `_ask_tutor` return an error display text and no
suggested command, and a payload the decoder rejects makes the requester
return the parse-error display text and no suggested command (no failure
escapes as an exception, so the session continues). -/
theorem suggestion_failures_recovered :
    (∀ (e : String) (allow uc se : Bool),
      (_ask_tutor (.error e) allow uc se).2 = none ∧
      hasSubstr "tutr error: " (_ask_tutor (.error e) allow uc se).1 = true) ∧
    (∀ (decode : List Nat → Option (String × Option String))
       (events : List SelectEvent) (payload : List Nat) (child : ChildReap),
      runCancelLoop events [] = some (.finished payload) →
      decode payload = none →
      waitpidReturns child = true →
      _ask_tutor_with_cancel decode events child =
        some ("\r\ntutr error: failed to parse tutor response\r\n", none)) := by
  constructor
  · intro e allow uc se
    cases uc with
    | false =>
      refine ⟨rfl, ?_⟩
      have hdecomp : ("\r\ntutr error: " ++ e ++ "\r\n").data =
          "\r\n".data ++ "tutr error: ".data ++ (e ++ "\r\n").data := by
        simp [String.data_append]
      simp only [_ask_tutor, hasSubstr, Bool.false_eq_true, if_false]
      rw [hdecomp]
      exact hasSub_mid _ _ _
    | true =>
      refine ⟨rfl, ?_⟩
      have hdecomp : ("\r\n" ++ RED ++ "tutr error: " ++ e ++ RESET ++ "\r\n").data =
          ("\r\n" ++ RED).data ++ "tutr error: ".data ++ (e ++ RESET ++ "\r\n").data := by
        simp [String.data_append]
      simp only [_ask_tutor, hasSubstr, if_true]
      rw [hdecomp]
      exact hasSub_mid _ _ _
  · intro decode events payload child hloop hdec hreap
    rw [_ask_tutor_with_cancel, hloop]
    simp [hreap, hdec]

/-- Witness for C8: a two-chunk pipe trace whose payload the decoder
rejects produces the parse-error result. -/
theorem suggestion_failures_recovered_witness :
    (runCancelLoop
        [SelectEvent.ready none (some (PipeRead.chunk [123])),
         SelectEvent.ready none (some (PipeRead.chunk []))] [] =
      some (.finished [123])) ∧
    _ask_tutor_with_cancel (fun _ => none)
      [SelectEvent.ready none (some (PipeRead.chunk [123])),
       SelectEvent.ready none (some (PipeRead.chunk []))] ChildReap.reaps =
      some ("\r\ntutr error: failed to parse tutor response\r\n", none) :=
  ⟨by decide,
   suggestion_failures_recovered.2 (fun _ => none)
     [SelectEvent.ready none (some (PipeRead.chunk [123])),
      SelectEvent.ready none (some (PipeRead.chunk []))] [123] ChildReap.reaps
     (by decide) rfl rfl⟩

/-- Counterexample to C9: with a child that ignores SIGTERM and never
exits, the blocking `os.waitpid(pid, 0)` reap never returns, so the
canceled requester never completes — there is no bounded wait. -/
theorem cancel_reap_unbounded_counterexample :
    _ask_tutor_with_cancel (fun _ => none)
      [SelectEvent.ready (some (StdinRead.byte 27)) none] ChildReap.hangs = none ∧
    ¬ ∃ r, _ask_tutor_with_cancel (fun _ => none)
      [SelectEvent.ready (some (StdinRead.byte 27)) none] ChildReap.hangs = some r := by
  refine ⟨rfl, ?_⟩
  rintro ⟨r, hr⟩
  rw [show _ask_tutor_with_cancel (fun _ => none)
      [SelectEvent.ready (some (StdinRead.byte 27)) none] ChildReap.hangs = none
    from rfl] at hr
  exact Option.noConfusion hr

/-- Claim C9 as amended: on cancellation the requester signals the child
and then reaps it with an unbounded blocking wait; whenever that wait
returns (the child exits, e.g. honoring SIGTERM) the cancellation result
is returned, but a child that never exits blocks the requester
indefinitely. -/
theorem cancel_reap_amended
    (decode : List Nat → Option (String × Option String))
    (events : List SelectEvent) (child : ChildReap)
    (hc : cancelWins events = true) :
    (waitpidReturns child = true →
      _ask_tutor_with_cancel decode events child =
        some ("\r\ntutr canceled.\r\n", none)) ∧
    (waitpidReturns child = false →
      _ask_tutor_with_cancel decode events child = none) := by
  have h := cancelWins_runCancelLoop events hc []
  constructor
  · intro hw
    rw [_ask_tutor_with_cancel, h]
    simp [hw]
  · intro hw
    rw [_ask_tutor_with_cancel, h]
    simp [hw]

/-- Witness for C9 (amended) with a reapable child. -/
theorem cancel_reap_amended_witness :
    cancelWins [SelectEvent.ready (some (StdinRead.byte 3)) none] = true ∧
    _ask_tutor_with_cancel (fun _ => none)
      [SelectEvent.ready (some (StdinRead.byte 3)) none] ChildReap.reaps =
      some ("\r\ntutr canceled.\r\n", none) :=
  ⟨by decide,
   (cancel_reap_amended (fun _ => none)
      [SelectEvent.ready (some (StdinRead.byte 3)) none] ChildReap.reaps
      (by decide)).1 rfl⟩

/-- The length of the rolling window is the minimum of the bound and of
the full length. -/
theorem takeLast_length (n : Nat) (l : List Nat) :
    (takeLast n l).length = min n l.length := by
  simp [takeLast]
  omega

/-- The rolling window is a suffix of the full list. -/
theorem takeLast_suffix (n : Nat) (l : List Nat) :
    ∃ pre, pre ++ takeLast n l = l :=
  ⟨l.take (l.length - n), List.take_append_drop _ _⟩

/-- Folding the per-marker reset over the marker list empties the buffer
exactly when at least one marker was processed. -/
theorem foldl_reset (ms : List (Nat × List Nat)) (buf : List Nat) :
    ms.foldl (fun _ _ => ([] : List Nat)) buf = if ms.isEmpty then buf else [] := by
  induction ms generalizing buf with
  | nil => rfl
  | cons m t ih => simp [List.foldl_cons, ih, List.isEmpty]

/-- Iterating the buffer update keeps the length within the bound as soon
as the starting buffer is within the bound. -/
theorem foldl_iterBuffer_le (chunks : List (List Nat)) (buf : List Nat)
    (h : buf.length ≤ OUTPUT_BUFFER_SIZE) :
    (chunks.foldl iterBuffer buf).length ≤ OUTPUT_BUFFER_SIZE := by
  induction chunks generalizing buf with
  | nil => simpa using h
  | cons c t ih =>
    rw [List.foldl_cons]
    apply ih
    rw [iterBuffer, takeLast_length]
    exact Nat.min_le_left _ _

/-- Claim C7: after every PTY-loop iteration the rolling buffer holds at
most `OUTPUT_BUFFER_SIZE` (4096) bytes; it equals exactly the most recent
stripped-output bytes up to that capacity, appended to the previous buffer
only when the chunk carried no marker (each processed marker having reset
the buffer to empty first); it is a suffix of that stream; and the bound
holds after any sequence of iterations from the initial empty buffer. -/
theorem rolling_buffer_invariant (buf data : List Nat) (chunks : List (List Nat)) :
    (iterBuffer buf data).length ≤ OUTPUT_BUFFER_SIZE ∧
    iterBuffer buf data =
      takeLast OUTPUT_BUFFER_SIZE
        ((if (findallMarkers data).isEmpty then buf else []) ++ stripMarkers data) ∧
    (iterBuffer buf data).length =
      min OUTPUT_BUFFER_SIZE
        ((if (findallMarkers data).isEmpty then buf else []) ++ stripMarkers data).length ∧
    (∃ pre, pre ++ iterBuffer buf data =
      (if (findallMarkers data).isEmpty then buf else []) ++ stripMarkers data) ∧
    (runBuffer chunks).length ≤ OUTPUT_BUFFER_SIZE := by
  have hdef : iterBuffer buf data =
      takeLast OUTPUT_BUFFER_SIZE
        ((if (findallMarkers data).isEmpty then buf else []) ++ stripMarkers data) := by
    rw [iterBuffer, foldl_reset]
  refine ⟨?_, hdef, ?_, ?_, ?_⟩
  · rw [hdef, takeLast_length]
    exact Nat.min_le_left _ _
  · rw [hdef, takeLast_length]
  · rw [hdef]
    exact takeLast_suffix _ _
  · exact foldl_iterBuffer_le chunks [] (by simp [OUTPUT_BUFFER_SIZE])

/-- The digit span splits its input. -/
theorem spanDigits_join (l : List Nat) :
    (spanDigits l).1 ++ (spanDigits l).2 = l := by
  induction l with
  | nil => rfl
  | cons c cs ih =>
    by_cases hc : isDigitByte c = true
    · simp [spanDigits, hc, ih]
    · simp [spanDigits, Bool.eq_false_iff.2 hc]

/-- The digit span of an all-digit run followed by a non-digit. -/
theorem spanDigits_all_append (ds r : List Nat) (x : Nat)
    (hds : ∀ d ∈ ds, isDigitByte d = true) (hx : isDigitByte x = false) :
    spanDigits (ds ++ x :: r) = (ds, x :: r) := by
  induction ds with
  | nil => simp [spanDigits, hx]
  | cons d t ih =>
    have hd : isDigitByte d = true := hds d (by simp)
    have ht : ∀ e ∈ t, isDigitByte e = true := fun e he => hds e (by simp [he])
    simp [spanDigits, hd, ih ht]

/-- The BEL span splits its input. -/
theorem spanNonBel_join (l : List Nat) :
    (spanNonBel l).1 ++ (spanNonBel l).2 = l := by
  induction l with
  | nil => rfl
  | cons c cs ih =>
    by_cases hc : (c == 7) = true
    · simp [spanNonBel, hc]
    · simp [spanNonBel, Bool.eq_false_iff.2 hc, ih]

/-- The BEL span of a BEL-free run followed by a BEL. -/
theorem spanNonBel_all_append (cmd r : List Nat)
    (hc : ∀ c ∈ cmd, (c == 7) = false) :
    spanNonBel (cmd ++ 7 :: r) = (cmd, 7 :: r) := by
  induction cmd with
  | nil => simp [spanNonBel]
  | cons c t ih =>
    have h1 : (c == 7) = false := hc c (by simp)
    have h2 : ∀ e ∈ t, (e == 7) = false := fun e he => hc e (by simp [he])
    simp [spanNonBel, h1, ih h2]

/-- Positive form of `parseDigits` on a non-empty digit run. -/
theorem parseDigits_pos (ds r : List Nat) (x : Nat)
    (hds : ∀ d ∈ ds, isDigitByte d = true) (hne : ds ≠ [])
    (hx : isDigitByte x = false) :
    parseDigits (ds ++ x :: r) = some (ds, x :: r) := by
  rw [parseDigits, spanDigits_all_append ds r x hds hx]
  cases ds with
  | nil => exact absurd rfl hne
  | cons d t => rfl

/-- Inversion of a successful `parseDigits`. -/
theorem parseDigits_some (l ds r1 : List Nat)
    (h : parseDigits l = some (ds, r1)) : ds ++ r1 = l ∧ ds ≠ [] := by
  rw [parseDigits] at h
  have hj := spanDigits_join l
  cases hs : spanDigits l with
  | mk a b =>
    rw [hs] at h hj
    cases a with
    | nil => simp at h
    | cons y ys =>
      simp only [Option.some.injEq, Prod.mk.injEq] at h
      obtain ⟨h1, h2⟩ := h
      subst h1; subst h2
      exact ⟨hj, by simp⟩

/-- Positive form of `parseCmdBytes` on a BEL-free command run. -/
theorem parseCmdBytes_pos (cmd r : List Nat)
    (hc : ∀ c ∈ cmd, (c == 7) = false) :
    parseCmdBytes (cmd ++ 7 :: r) = some (cmd, r) := by
  rw [parseCmdBytes, spanNonBel_all_append cmd r hc]
  simp

/-- Inversion of a successful `parseCmdBytes`. -/
theorem parseCmdBytes_some (l cmd r3 : List Nat)
    (h : parseCmdBytes l = some (cmd, r3)) : cmd ++ 7 :: r3 = l := by
  rw [parseCmdBytes] at h
  have hj := spanNonBel_join l
  cases hs : spanNonBel l with
  | mk a b =>
    rw [hs] at h hj
    cases b with
    | nil => simp at h
    | cons x xs =>
      by_cases hx : (x == 7) = true
      · have hx' : x = 7 := by simpa using hx
        subst hx'
        simp at h
        obtain ⟨h1, h2⟩ := h
        subst h1; subst h2
        simpa using hj
      · simp [hx] at h

/-- The header parser accepts exactly the marker header. -/
theorem stripHeader_encode (rest : List Nat) :
    stripHeader (headerBytes ++ rest) = some rest := rfl

/-- The header parser rejects any list not starting with ESC. -/
theorem stripHeader_cons_ne (c : Nat) (t : List Nat) (h : (c == 27) = false) :
    stripHeader (c :: t) = none := by
  rcases t with _ | ⟨b, _ | ⟨c3, _ | ⟨d, _ | ⟨e, _ | ⟨f, _ | ⟨g, rest⟩⟩⟩⟩⟩⟩ <;>
    simp [stripHeader, h]

/-- A successful header parse consumes exactly seven bytes. -/
theorem stripHeader_some_length (l r : List Nat) (h : stripHeader l = some r) :
    l.length = 7 + r.length := by
  rcases l with _ | ⟨a, _ | ⟨b, _ | ⟨c3, _ | ⟨d, _ | ⟨e, _ | ⟨f, _ | ⟨g, rest⟩⟩⟩⟩⟩⟩⟩ <;>
    simp [stripHeader] at h
  obtain ⟨-, h'⟩ := h
  simp [← h']
  omega

/-- A well-formed encoded marker at the head of a list is matched exactly,
leaving the trailing bytes. -/
theorem matchMarker_encode (m : Marker) (rest : List Nat) (h : wfMarker m = true) :
    matchMarker (encodeMarker m ++ rest) =
      some (digitsToNat m.codeDigits, m.cmd, rest) := by
  simp only [wfMarker, Bool.and_eq_true] at h
  obtain ⟨⟨hdig, hne⟩, hcmd⟩ := h
  have hdig' : ∀ d ∈ m.codeDigits, isDigitByte d = true := by
    simpa [List.all_eq_true] using hdig
  have hne' : m.codeDigits ≠ [] := by
    cases hcd : m.codeDigits with
    | nil => rw [hcd] at hne; simp at hne
    | cons x xs => simp
  have hcmd' : ∀ c ∈ m.cmd, (c == 7) = false := by
    intro c hc
    have := (List.all_eq_true.1 hcmd) c hc
    simp only [Bool.and_eq_true, Bool.not_eq_true'] at this
    exact this.1
  have hassoc : encodeMarker m ++ rest =
      headerBytes ++ (m.codeDigits ++ 59 :: (m.cmd ++ 7 :: rest)) := by
    simp [encodeMarker, List.append_assoc]
  rw [matchMarker, hassoc, stripHeader_encode]
  rw [Option.some_bind]
  rw [parseDigits_pos m.codeDigits (m.cmd ++ 7 :: rest) 59 hdig' hne' (by decide)]
  rw [Option.some_bind]
  simp only []
  rw [if_pos (by decide)]
  rw [parseCmdBytes_pos m.cmd rest hcmd']
  rfl

/-- No marker match can begin at a byte other than ESC. -/
theorem matchMarker_cons_ne (c : Nat) (t : List Nat) (h : (c == 27) = false) :
    matchMarker (c :: t) = none := by
  rw [matchMarker, stripHeader_cons_ne c t h, Option.none_bind]

/-- A marker match strictly consumes input. -/
theorem matchMarker_rest_lt (l : List Nat) (code : Nat) (cmd rest : List Nat)
    (h : matchMarker l = some (code, cmd, rest)) : rest.length < l.length := by
  rw [matchMarker] at h
  cases hsh : stripHeader l with
  | none => rw [hsh, Option.none_bind] at h; exact absurd h (by simp)
  | some r0 =>
    rw [hsh, Option.some_bind] at h
    have hlen0 := stripHeader_some_length l r0 hsh
    cases hpd : parseDigits r0 with
    | none => rw [hpd, Option.none_bind] at h; exact absurd h (by simp)
    | some dsr1 =>
      obtain ⟨ds, r1⟩ := dsr1
      rw [hpd, Option.some_bind] at h
      obtain ⟨hjoin, -⟩ := parseDigits_some r0 ds r1 hpd
      cases r1 with
      | nil => exact absurd h (by simp)
      | cons x r2 =>
        simp only [] at h
        by_cases hx : (x == 59) = true
        · rw [if_pos hx] at h
          cases hpc : parseCmdBytes r2 with
          | none => rw [hpc] at h; exact absurd h (by simp)
          | some cmdr3 =>
            obtain ⟨cmd', r3⟩ := cmdr3
            rw [hpc, Option.map_some'] at h
            simp only [Option.some.injEq, Prod.mk.injEq] at h
            obtain ⟨-, -, h3⟩ := h
            have hjoin2 := parseCmdBytes_some r2 cmd' r3 hpc
            have e1 : r0.length = ds.length + (r2.length + 1) := by
              rw [← hjoin]; simp
            have e2 : r2.length = cmd'.length + (r3.length + 1) := by
              rw [← hjoin2]; simp
            rw [← h3]
            omega
        · rw [if_neg hx] at h
          exact absurd h (by simp)

/-- The scanner yields nothing on an empty chunk, whatever the fuel. -/
theorem scanMarkersAux_nil (fuel : Nat) : scanMarkersAux fuel [] = ([], []) := by
  cases fuel <;> rfl

/-- Scanner step on a position where no marker matches. -/
theorem scanAux_cons_none (fuel : Nat) (c : Nat) (cs : List Nat)
    (h : matchMarker (c :: cs) = none) :
    scanMarkersAux (fuel + 1) (c :: cs) =
      ((scanMarkersAux fuel cs).1, c :: (scanMarkersAux fuel cs).2) := by
  simp only [scanMarkersAux, h]

/-- Scanner step on a position where a marker matches. -/
theorem scanAux_cons_some (fuel : Nat) (c : Nat) (cs : List Nat)
    (code : Nat) (cmd rest : List Nat)
    (h : matchMarker (c :: cs) = some (code, cmd, rest)) :
    scanMarkersAux (fuel + 1) (c :: cs) =
      ((code, cmd) :: (scanMarkersAux fuel rest).1, (scanMarkersAux fuel rest).2) := by
  simp only [scanMarkersAux, h]

/-- The scanner result does not depend on the fuel once the fuel covers
the chunk length. -/
theorem scanAux_fuel_irrel (fuel1 : Nat) :
    ∀ (l : List Nat) (fuel2 : Nat), l.length ≤ fuel1 → l.length ≤ fuel2 →
      scanMarkersAux fuel1 l = scanMarkersAux fuel2 l := by
  induction fuel1 with
  | zero =>
    intro l fuel2 h1 _
    have : l = [] := List.eq_nil_of_length_eq_zero (Nat.le_zero.1 h1)
    subst this
    rw [scanMarkersAux_nil, scanMarkersAux_nil]
  | succ f ih =>
    intro l fuel2 h1 h2
    cases l with
    | nil => rw [scanMarkersAux_nil, scanMarkersAux_nil]
    | cons c cs =>
      cases fuel2 with
      | zero => simp at h2
      | succ f2 =>
        cases hm : matchMarker (c :: cs) with
        | none =>
          rw [scanAux_cons_none f c cs hm, scanAux_cons_none f2 c cs hm]
          have h1' : cs.length ≤ f := by simpa using h1
          have h2' : cs.length ≤ f2 := by simpa using h2
          rw [ih cs f2 h1' h2']
        | some tr =>
          obtain ⟨code, cmd, rest⟩ := tr
          rw [scanAux_cons_some f c cs code cmd rest hm,
            scanAux_cons_some f2 c cs code cmd rest hm]
          have hlt := matchMarker_rest_lt _ _ _ _ hm
          simp only [List.length_cons] at hlt h1 h2
          rw [ih rest f2 (by omega) (by omega)]

/-- The scanner passes over an ESC-free literal prefix unchanged. -/
theorem scanAux_lit (lit : List Nat) :
    ∀ (l : List Nat) (fuel : Nat), (∀ c ∈ lit, (c == 27) = false) →
      (lit ++ l).length ≤ fuel →
      scanMarkersAux fuel (lit ++ l) =
        ((scanMarkersAux (fuel - lit.length) l).1,
          lit ++ (scanMarkersAux (fuel - lit.length) l).2) := by
  induction lit with
  | nil => intro l fuel _ _; simp
  | cons c t ih =>
    intro l fuel hesc hlen
    cases fuel with
    | zero => simp at hlen
    | succ f =>
      have hc : (c == 27) = false := hesc c (by simp)
      have hmm : matchMarker (c :: (t ++ l)) = none := matchMarker_cons_ne c _ hc
      rw [List.cons_append, scanAux_cons_none f c (t ++ l) hmm]
      have ht : ∀ e ∈ t, (e == 27) = false := fun e he => hesc e (by simp [he])
      have hlen' : (t ++ l).length ≤ f := by
        simp only [List.cons_append, List.length_cons] at hlen
        omega
      rw [ih l f ht hlen']
      have harith : f + 1 - (c :: t).length = f - t.length := by
        simp only [List.length_cons]
        omega
      rw [harith]
      simp

/-- The scanner consumes a well-formed encoded marker at the head and
recurses on the rest. -/
theorem scanAux_marker (m : Marker) (l : List Nat) (fuel : Nat)
    (hm : wfMarker m = true) (hl : l.length ≤ fuel) :
    scanMarkersAux (fuel + 1) (encodeMarker m ++ l) =
      ((digitsToNat m.codeDigits, m.cmd) :: (scanMarkers l).1,
        (scanMarkers l).2) := by
  have hcons : encodeMarker m ++ l =
      27 :: (([93, 55, 55, 55, 48, 59] ++ m.codeDigits ++ 59 :: m.cmd ++ [7]) ++ l) := by
    simp [encodeMarker, headerBytes]
  have hmt : matchMarker
      (27 :: (([93, 55, 55, 55, 48, 59] ++ m.codeDigits ++ 59 :: m.cmd ++ [7]) ++ l)) =
      some (digitsToNat m.codeDigits, m.cmd, l) := by
    rw [← hcons]
    exact matchMarker_encode m l hm
  rw [hcons, scanAux_cons_some fuel _ _ _ _ _ hmt]
  rw [scanAux_fuel_irrel fuel l l.length hl (le_refl _)]
  rfl

/-- A scan of an assembled well-formed chunk yields exactly its markers in
order and exactly its literal bytes in order. -/
theorem scanMarkers_assemble (segs : List Seg) (h : wfSegs segs = true) :
    scanMarkers (assemble segs) = (markersOf segs, literalsOf segs) := by
  induction segs with
  | nil => rfl
  | cons s t ih =>
    simp only [wfSegs, List.all_cons, Bool.and_eq_true] at h
    obtain ⟨hs, ht⟩ := h
    have iht : scanMarkers (assemble t) = (markersOf t, literalsOf t) :=
      ih (by simpa [wfSegs] using ht)
    cases s with
    | lit lbytes =>
      have hesc : ∀ c ∈ lbytes, (c == 27) = false := by
        have hs' : ∀ c ∈ lbytes, ¬ c = 27 := by simpa using hs
        intro c hc
        simpa using hs' c hc
      have hassem : assemble (Seg.lit lbytes :: t) = lbytes ++ assemble t := by
        simp [assemble]
      rw [scanMarkers, hassem]
      rw [scanAux_lit lbytes (assemble t) (lbytes ++ assemble t).length hesc (le_refl _)]
      have harith : (lbytes ++ assemble t).length - lbytes.length =
          (assemble t).length := by
        simp
      rw [harith]
      have : scanMarkersAux (assemble t).length (assemble t) =
          (markersOf t, literalsOf t) := iht
      rw [this]
      simp [markersOf, literalsOf]
    | mark m =>
      have hwfm : wfMarker m = true := by simpa using hs
      have hassem : assemble (Seg.mark m :: t) = encodeMarker m ++ assemble t := by
        simp [assemble]
      rw [scanMarkers, hassem]
      have hpos : 1 ≤ (encodeMarker m ++ assemble t).length := by
        simp [encodeMarker, headerBytes]
      have hsplit : (encodeMarker m ++ assemble t).length =
          ((encodeMarker m ++ assemble t).length - 1) + 1 := by omega
      rw [hsplit]
      have hl : (assemble t).length ≤ (encodeMarker m ++ assemble t).length - 1 := by
        have : (encodeMarker m ++ assemble t).length =
            (encodeMarker m).length + (assemble t).length := by simp
        have henc : 1 ≤ (encodeMarker m).length := by
          simp [encodeMarker, headerBytes]
        omega
      rw [scanAux_marker m (assemble t) _ hwfm hl]
      rw [iht]
      simp [markersOf, literalsOf]

/-- Claim C5: on any chunk assembled from ESC-free literal runs and
well-formed markers, the strip operation removes exactly the bytes of the
complete marker occurrences, leaving every other byte unchanged and in its
original relative order, so no marker bytes reach the real terminal. -/
theorem strip_removes_exactly_markers (segs : List Seg) (h : wfSegs segs = true) :
    stripMarkers (assemble segs) = literalsOf segs :=
  congrArg Prod.snd (scanMarkers_assemble segs h)

/-- Witness for C5: text around one marker and one trailing marker. -/
theorem strip_removes_exactly_markers_witness :
    wfSegs [Seg.lit [104, 105], Seg.mark ⟨[49], [108, 115]⟩,
      Seg.lit [10, 62], Seg.mark ⟨[48], []⟩] = true ∧
    stripMarkers (assemble [Seg.lit [104, 105], Seg.mark ⟨[49], [108, 115]⟩,
      Seg.lit [10, 62], Seg.mark ⟨[48], []⟩]) =
      literalsOf [Seg.lit [104, 105], Seg.mark ⟨[49], [108, 115]⟩,
        Seg.lit [10, 62], Seg.mark ⟨[48], []⟩] :=
  ⟨by decide,
   strip_removes_exactly_markers
     [Seg.lit [104, 105], Seg.mark ⟨[49], [108, 115]⟩,
      Seg.lit [10, 62], Seg.mark ⟨[48], []⟩] (by decide)⟩

/-- Claim C6: on any chunk assembled from ESC-free literal runs and
well-formed markers, marker parsing yields the markers in left-to-right
order of occurrence, each with exit code equal to the decimal value of the
embedded digit field and command bytes exactly equal to the embedded
command field (empty commands included). -/
theorem parse_markers_in_order (segs : List Seg) (h : wfSegs segs = true) :
    findallMarkers (assemble segs) = markersOf segs :=
  congrArg Prod.fst (scanMarkers_assemble segs h)

/-- Witness for C6: two markers in one chunk, the second with an empty
command field, parsed in order with decoded exit codes 130 and 0. -/
theorem parse_markers_in_order_witness :
    wfSegs [Seg.lit [36, 32], Seg.mark ⟨[49, 51, 48], [115, 108, 101, 101, 112]⟩,
      Seg.mark ⟨[48], []⟩] = true ∧
    findallMarkers (assemble [Seg.lit [36, 32],
      Seg.mark ⟨[49, 51, 48], [115, 108, 101, 101, 112]⟩, Seg.mark ⟨[48], []⟩]) =
      [(130, [115, 108, 101, 101, 112]), (0, [])] :=
  ⟨by decide,
   (parse_markers_in_order [Seg.lit [36, 32],
      Seg.mark ⟨[49, 51, 48], [115, 108, 101, 101, 112]⟩, Seg.mark ⟨[48], []⟩]
      (by decide)).trans (by decide)⟩

/-- A string occurs in itself followed by anything. -/
theorem hasSubstr_self_append (n t : String) : hasSubstr n (n ++ t) = true := by
  simp only [hasSubstr, String.data_append]
  exact hasSub_self_append _ _

/-- A string occurs in itself. -/
theorem hasSubstr_refl (n : String) : hasSubstr n n = true := by
  have := hasSub_self_append n.data []
  simpa [hasSubstr] using this

/-- Occurrences survive prepending a string. -/
theorem hasSubstr_append_left (pre : String) {n t : String}
    (h : hasSubstr n t = true) : hasSubstr n (pre ++ t) = true := by
  simp only [hasSubstr, String.data_append]
  exact hasSub_append_left _ h

/-- Occurrences survive appending a string. -/
theorem hasSubstr_append_right (b : String) {n t : String}
    (h : hasSubstr n t = true) : hasSubstr n (t ++ b) = true := by
  simp only [hasSubstr, String.data_append]
  exact hasSub_append_right _ h

/-- Every listed reason occurs in the per-reason lines of the blocked
message. -/
theorem reasonLines_hasSubstr (x : String) (rs : List String) (hx : x ∈ rs) :
    hasSubstr x (reasonLines rs) = true := by
  induction rs with
  | nil => cases hx
  | cons a t ih =>
    rcases List.mem_cons.1 hx with hx' | hx'
    · subst hx'
      simp only [reasonLines]
      apply hasSubstr_append_right
      apply hasSubstr_append_right
      apply hasSubstr_append_left
      exact hasSubstr_refl x
    · simp only [reasonLines]
      exact hasSubstr_append_left _ (ih hx')

/-- The blocked message contains its fixed header text. -/
theorem blockedMessage_hasSub_header (rs : List String) :
    hasSubstr "tutr blocked a potentially dangerous suggestion"
      (blockedMessage rs) = true := by
  have hintro : ("\r\ntutr blocked a potentially dangerous suggestion:\r\n" : String) =
      ("\r\n" ++ "tutr blocked a potentially dangerous suggestion") ++ ":\r\n" := by
    decide
  rw [blockedMessage, hintro]
  apply hasSubstr_append_right
  apply hasSubstr_append_right
  apply hasSubstr_append_right
  apply hasSubstr_append_left
  exact hasSubstr_refl _

/-- The blocked message lists every reason of the assessment. -/
theorem blockedMessage_hasSub_reason (rs : List String) (x : String) (hx : x ∈ rs) :
    hasSubstr x (blockedMessage rs) = true := by
  rw [blockedMessage]
  apply hasSubstr_append_right
  apply hasSubstr_append_left
  exact reasonLines_hasSubstr x rs hx

/-- The success-path message with the unsafe warning enabled contains the
visible warning text, whatever the color and explanation settings. -/
theorem suggestionMessage_warn (r : CommandResponse) (uc se : Bool) :
    hasSubstr "tutr warning: unsafe override enabled for a risky suggestion"
      (suggestionMessage r true uc se) = true := by
  cases uc with
  | false =>
    simp only [suggestionMessage, if_true, Bool.false_eq_true, if_false]
    apply hasSubstr_append_right
    apply hasSubstr_append_right
    apply hasSubstr_append_right
    apply hasSubstr_append_right
    apply hasSubstr_append_right
    apply hasSubstr_append_right
    apply hasSubstr_append_right
    apply hasSubstr_append_left
    exact hasSubstr_refl _
  | true =>
    simp only [suggestionMessage, if_true]
    apply hasSubstr_append_right
    apply hasSubstr_append_right
    apply hasSubstr_append_right
    apply hasSubstr_append_right
    apply hasSubstr_append_right
    apply hasSubstr_append_right
    apply hasSubstr_append_right
    apply hasSubstr_append_left
    apply hasSubstr_append_right
    apply hasSubstr_append_left
    exact hasSubstr_refl _

/-- Claim C2: for a suggested command failing the safety assessment, with
the unsafe override off the returned pair carries no suggested command and
its display text is the blocked message, naming the block and every
reason; with the override on, the suggested command is present and the
display text carries the visible override warning — for any color and
explanation settings. -/
theorem ask_tutor_safety_gate (r : CommandResponse) (uc se : Bool)
    (h : (assess_command_safety r.command).is_safe = false) :
    ((_ask_tutor (.ok r) false uc se).2 = none ∧
     hasSubstr "tutr blocked a potentially dangerous suggestion"
       (_ask_tutor (.ok r) false uc se).1 = true ∧
     (∀ reason ∈ (assess_command_safety r.command).reasons,
       hasSubstr reason (_ask_tutor (.ok r) false uc se).1 = true)) ∧
    ((_ask_tutor (.ok r) true uc se).2 = some r.command ∧
     hasSubstr "tutr warning: unsafe override enabled for a risky suggestion"
       (_ask_tutor (.ok r) true uc se).1 = true) := by
  have hblk : _ask_tutor (.ok r) false uc se =
      (blockedMessage (assess_command_safety r.command).reasons, none) := by
    simp [_ask_tutor, h]
  have hov : _ask_tutor (.ok r) true uc se =
      (suggestionMessage r true uc se, some r.command) := by
    simp [_ask_tutor, h]
  refine ⟨⟨?_, ?_, ?_⟩, ?_, ?_⟩
  · rw [hblk]
  · rw [hblk]
    exact blockedMessage_hasSub_header _
  · intro reason hre
    rw [hblk]
    exact blockedMessage_hasSub_reason _ _ hre
  · rw [hov]
  · rw [hov]
    exact suggestionMessage_warn r uc se

/-- Witness for C2: the suggestion "rm -rf x" is assessed unsafe; with no
override it is withheld, with the override it is offered. -/
theorem ask_tutor_safety_gate_witness :
    (assess_command_safety "rm -rf x").is_safe = false ∧
    ((_ask_tutor (.ok ⟨"rm -rf x", "", none⟩) false false false).2 = none ∧
      (_ask_tutor (.ok ⟨"rm -rf x", "", none⟩) true false false).2 =
        some "rm -rf x") :=
  ⟨by decide,
   ((ask_tutor_safety_gate ⟨"rm -rf x", "", none⟩ false false (by decide)).1).1,
   ((ask_tutor_safety_gate ⟨"rm -rf x", "", none⟩ false false (by decide)).2).1⟩

end Tutr
